import Mathlib

/-!
Verification development for the HCE IPA transcriber.

The Python sources are shallowly embedded as executable Lean definitions:

* `ipa_converter.py` — `clean_word`, `get_ipa_fallback`, the `HCE_MAP`
  substitution table and `process_text` (the candidate-generation pipeline);
* `app_hce.py` / `app_enhanced.py` — `auto_learn_from_selection` /
  `enhanced_auto_learn_from_selection` (ledger replay, confidence scoring
  and promotion into the override dictionary) and `force_save_to_override`.

Modelling conventions:

* Python strings are Lean `String`s; the string methods used by the code
  (`str.replace`, `str.strip`, `str.lower`, `str.split`, `str.isalnum`)
  are re-implemented below over `String.data` with Python's documented
  semantics.  `str.lower` is modelled on the basic-latin range (the only
  range the program's inputs exercise); `str.isalnum` likewise.
* The external `espeak-ng` synthesizer is an oracle parameter
  `espeak : String → Option String` (`none` models "not installed /
  failed"; the empty string models empty synthesizer output, which the
  code treats as falsy).
* Python `float` confidence arithmetic is modelled with exact rationals
  `ℚ`; every concrete comparison exercised in the theorems below is exact
  in binary floating point as well.
* JSON files are modelled post-parsing: the override dictionary is an
  association list with Python-`dict` insertion semantics, and the
  learning ledger is a list of `Option` entries where `none` stands for a
  line `json.loads` rejects.
-/

/-! ## Python string primitives -/

/-- The characters stripped by `word.strip(".,!?;:")` in the source. -/
def stripChars : List Char := ['.', ',', '!', '?', ';', ':']

/-- Membership in the strip set. -/
def isStripChar (c : Char) : Bool := stripChars.contains c

/-- Python `str.lower`, modelled on the basic-latin range (`Char.toLower` maps
`A`–`Z` to `a`–`z` and leaves every other character unchanged, as
`str.lower` does on the program's ASCII word inputs). -/
def pyLower (s : String) : String := ⟨s.data.map Char.toLower⟩

/-- Python `str.strip(chars)`: remove leading and trailing characters belonging
to the strip set. -/
def pyStrip (s : String) : String :=
  ⟨(s.data.dropWhile isStripChar).rdropWhile isStripChar⟩

/-- The source's `ipa_converter.clean_word`: `word.lower().strip(".,!?;:")`. -/
def clean_word (word : String) : String := pyStrip (pyLower word)

/-- One pass of Python `str.replace` over a character list: replace every
non-overlapping occurrence of `pat`, scanning left to right.  The `fuel`
argument makes the recursion structural for kernel evaluation; every
recursive call strictly shortens the list, so with `fuel` at least the
list length the `0` case is never reached. -/
def listReplaceF (pat rep : List Char) : Nat → List Char → List Char
  | _, [] => []
  | 0, s => s
  | fuel + 1, c :: rest =>
    if pat ≠ [] ∧ pat.isPrefixOf (c :: rest) then
      rep ++ listReplaceF pat rep fuel ((c :: rest).drop pat.length)
    else
      c :: listReplaceF pat rep fuel rest

/-- Python `str.replace(pat, rep)` on `String`s. -/
def pyReplace (s pat rep : String) : String :=
  ⟨listReplaceF pat.data rep.data s.data.length s.data⟩

/-- Python `str.split()` (no argument): split on runs of whitespace,
discarding empty fragments.  `cur` is the reversed current fragment. -/
def pySplitAux (ws : Char → Bool) : List Char → List Char → List (List Char)
  | [], [] => []
  | [], cur => [cur.reverse]
  | c :: rest, cur =>
    if ws c then
      if cur = [] then pySplitAux ws rest []
      else cur.reverse :: pySplitAux ws rest []
    else pySplitAux ws rest (c :: cur)

/-- The ASCII whitespace characters recognised by `str.split()`. -/
def pyIsSpace (c : Char) : Bool :=
  c = ' ' || c = '\t' || c = '\n' || c = '\r' || c = '\x0b' || c = '\x0c'

/-- Python `text.split()`. -/
def pySplit (text : String) : List String :=
  (pySplitAux pyIsSpace text.data []).map (fun l => ⟨l⟩)

/-- Python `str.isalnum()`, modelled on the basic-latin range: true iff
the string is non-empty and every character is alphanumeric. -/
def pyIsAlnum (s : String) : Bool :=
  !s.data.isEmpty && s.data.all Char.isAlphanum

/-- The apostrophe character (written via its code point). -/
def apos : Char := Char.ofNat 39

/-- A one-character string holding the apostrophe. -/
def aposStr : String := ⟨[apos]⟩

/-- Python `s.replace("'", "")` used by the word/non-word test. -/
def dropApos (s : String) : String := ⟨s.data.filter (fun c => c ≠ apos)⟩

/-! ## `ipa_converter.py`: the HCE substitution table and candidate pipeline -/

/-- The built-in `HCE_MAP` fallback table of `ipa_converter.py` (used when
`hce_map.json` is absent), in its literal order. -/
def HCE_MAP : List (String × String) := [
  ("ɪə", "ɪə̯"),
  ("ʊə", "ʊə̯"),
  ("eə", "eə̯"),
  ("æ", "æː"),
  ("ʉ", "ʉː"),
  ("ɜː", "ɜː"),
  ("ə", "əː"),
  ("əʉ", "əʊ"),
  ("æɪ", "æɪ"),
  ("ɑe", "ɑɪ"),
  ("ɑ", "ɑː"),
  ("oː", "oː"),
  ("iː", "iː"),
  ("uː", "uː"),
  ("ɔː", "oː"),
  ("ɛ", "e"),
  ("ɔ", "ɔ")
]

/-- The loop `for standard, hce in HCE_MAP.items(): s = s.replace(standard, hce)` —
each rule of the table applied in storage order as a Python
`str.replace`. -/
def applyHCE (table : List (String × String)) (s : String) : String :=
  table.foldl (fun acc r => pyReplace acc r.1 r.2) s

/-- The `fallback_mappings` dict literal of `get_ipa_fallback`, kept in
source order.  The literal repeats 23 keys (e.g. `"ask"`, `"but"`,
`"may"`); Python dict literals keep the LAST occurrence of a duplicated
key, which `fallbackLookup` below reproduces. -/
def fallback_mappings : List (String × List String) := [
  ("dance", ["dæːns", "dɑːns"]),
  ("cant", ["kæːnt", "kɑːnt"]),
  ("can" ++ aposStr ++ "t", ["kæːnt", "kɑːnt"]),
  ("castle", ["kæːsəl", "kɑːsəl"]),
  ("bath", ["bæːθ", "bɑːθ"]),
  ("path", ["pæːθ", "pɑːθ"]),
  ("laugh", ["læːf", "lɑːf"]),
  ("ask", ["æːsk", "ɑːsk"]),
  ("answer", ["æːnsə", "ɑːnsə"]),
  ("plant", ["plæːnt", "plɑːnt"]),
  ("example", ["ɪɡzæːmpəl", "ɪɡzɑːmpəl"]),
  ("chance", ["tʃæːns", "tʃɑːns"]),
  ("class", ["klæːs", "klɑːs"]),
  ("grass", ["ɡræːs", "ɡrɑːs"]),
  ("pass", ["pæːs", "pɑːs"]),
  ("fast", ["fæːst", "fɑːst"]),
  ("last", ["læːst", "lɑːst"]),
  ("staff", ["stæːf", "stɑːf"]),
  ("half", ["hæːf", "hɑːf"]),
  ("after", ["æːftə", "ɑːftə"]),
  ("master", ["mæːstə", "mɑːstə"]),
  ("australia", ["əˈstreɪljə", "ɒˈstreɪljə"]),
  ("melbourne", ["ˈmelbən", "ˈmelbɔːn"]),
  ("sydney", ["ˈsɪdni"]),
  ("brisbane", ["ˈbrɪzbən"]),
  ("perth", ["pɜːθ"]),
  ("adelaide", ["ˈædəleɪd"]),
  ("canberra", ["ˈkænbərə"]),
  ("darwin", ["ˈdɑːwɪn"]),
  ("hobart", ["ˈhoʊbɑːt"]),
  ("about", ["əˈbaʊt"]),
  ("house", ["haʊs"]),
  ("time", ["taɪm"]),
  ("day", ["deɪ"]),
  ("way", ["weɪ"]),
  ("go", ["ɡəʊ", "ɡoː"]),
  ("no", ["nəʊ", "noː"]),
  ("know", ["nəʊ", "noː"]),
  ("make", ["meɪk"]),
  ("take", ["teɪk"]),
  ("here", ["hɪə"]),
  ("there", ["ðeə"]),
  ("where", ["weə"]),
  ("care", ["keə"]),
  ("hair", ["heə"]),
  ("near", ["nɪə"]),
  ("beer", ["bɪə"]),
  ("year", ["jɪə"]),
  ("poor", ["pʊə"]),
  ("sure", ["ʃʊə"]),
  ("tour", ["tʊə"]),
  ("see", ["siː"]),
  ("be", ["biː"]),
  ("me", ["miː"]),
  ("he", ["hiː"]),
  ("she", ["ʃiː"]),
  ("we", ["wiː"]),
  ("tree", ["triː"]),
  ("free", ["friː"]),
  ("green", ["ɡriːn"]),
  ("meet", ["miːt"]),
  ("feet", ["fiːt"]),
  ("seat", ["siːt"]),
  ("heat", ["hiːt"]),
  ("beat", ["biːt"]),
  ("you", ["juː"]),
  ("do", ["duː"]),
  ("to", ["tuː", "tə"]),
  ("too", ["tuː"]),
  ("new", ["njuː", "nuː"]),
  ("view", ["vjuː"]),
  ("few", ["fjuː"]),
  ("blue", ["bluː"]),
  ("true", ["truː"]),
  ("school", ["skuːl"]),
  ("cool", ["kuːl"]),
  ("food", ["fuːd"]),
  ("mood", ["muːd"]),
  ("boot", ["buːt"]),
  ("root", ["ruːt"]),
  ("good", ["ɡʊd"]),
  ("book", ["bʊk"]),
  ("look", ["lʊk"]),
  ("took", ["tʊk"]),
  ("put", ["pʊt"]),
  ("could", ["kʊd"]),
  ("would", ["wʊd"]),
  ("should", ["ʃʊd"]),
  ("pull", ["pʊl"]),
  ("full", ["fʊl"]),
  ("push", ["pʊʃ"]),
  ("bird", ["bɜːd"]),
  ("word", ["wɜːd"]),
  ("first", ["fɜːst"]),
  ("work", ["wɜːk"]),
  ("turn", ["tɜːn"]),
  ("burn", ["bɜːn"]),
  ("learn", ["lɜːn"]),
  ("heard", ["hɜːd"]),
  ("early", ["ɜːli"]),
  ("earth", ["ɜːθ"]),
  ("car", ["kɑː"]),
  ("far", ["fɑː"]),
  ("start", ["stɑːt"]),
  ("heart", ["hɑːt"]),
  ("part", ["pɑːt"]),
  ("dark", ["dɑːk"]),
  ("park", ["pɑːk"]),
  ("mark", ["mɑːk"]),
  ("hard", ["hɑːd"]),
  ("card", ["kɑːd"]),
  ("all", ["ɔːl"]),
  ("call", ["kɔːl"]),
  ("fall", ["fɔːl"]),
  ("wall", ["wɔːl"]),
  ("small", ["smɔːl"]),
  ("talk", ["tɔːk"]),
  ("walk", ["wɔːk"]),
  ("thought", ["θɔːt"]),
  ("caught", ["kɔːt"]),
  ("taught", ["tɔːt"]),
  ("cat", ["kæt"]),
  ("hat", ["hæt"]),
  ("man", ["mæn"]),
  ("hand", ["hænd"]),
  ("land", ["lænd"]),
  ("stand", ["stænd"]),
  ("sand", ["sænd"]),
  ("plan", ["plæn"]),
  ("ran", ["ræn"]),
  ("can", ["kæn"]),
  ("dog", ["dɒɡ"]),
  ("hot", ["hɒt"]),
  ("not", ["nɒt"]),
  ("got", ["ɡɒt"]),
  ("lot", ["lɒt"]),
  ("top", ["tɒp"]),
  ("stop", ["stɒp"]),
  ("shop", ["ʃɒp"]),
  ("rock", ["rɒk"]),
  ("clock", ["klɒk"]),
  ("but", ["bʌt"]),
  ("cut", ["kʌt"]),
  ("run", ["rʌn"]),
  ("sun", ["sʌn"]),
  ("fun", ["fʌn"]),
  ("come", ["kʌm"]),
  ("some", ["sʌm"]),
  ("love", ["lʌv"]),
  ("above", ["əˈbʌv"]),
  ("money", ["ˈmʌni"]),
  ("sit", ["sɪt"]),
  ("hit", ["hɪt"]),
  ("big", ["bɪɡ"]),
  ("this", ["ðɪs"]),
  ("with", ["wɪð"]),
  ("will", ["wɪl"]),
  ("fish", ["fɪʃ"]),
  ("ship", ["ʃɪp"]),
  ("rich", ["rɪtʃ"]),
  ("which", ["wɪtʃ"]),
  ("get", ["ɡet"]),
  ("bed", ["bed"]),
  ("red", ["red"]),
  ("head", ["hed"]),
  ("said", ["sed"]),
  ("bread", ["bred"]),
  ("dead", ["ded"]),
  ("read", ["red"]),
  ("left", ["left"]),
  ("next", ["nekst"]),
  ("the", ["ðə", "ði"]),
  ("a", ["ə", "eɪ"]),
  ("an", ["ən", "æn"]),
  ("and", ["ənd", "ænd"]),
  ("or", ["ɔː", "ə"]),
  ("but", ["bʌt", "bət"]),
  ("if", ["ɪf"]),
  ("when", ["wen"]),
  ("what", ["wɒt"]),
  ("who", ["huː"]),
  ("why", ["waɪ"]),
  ("how", ["haʊ"]),
  ("where", ["weə"]),
  ("which", ["wɪtʃ"]),
  ("that", ["ðæt", "ðət"]),
  ("this", ["ðɪs"]),
  ("these", ["ðiːz"]),
  ("those", ["ðəʊz"]),
  ("they", ["ðeɪ"]),
  ("them", ["ðem", "ðəm"]),
  ("their", ["ðeə"]),
  ("there", ["ðeə"]),
  ("then", ["ðen"]),
  ("than", ["ðæn"]),
  ("is", ["ɪz"]),
  ("are", ["ɑː", "ə"]),
  ("was", ["wɒz", "wəz"]),
  ("were", ["wɜː", "wə"]),
  ("been", ["biːn"]),
  ("have", ["hæv", "həv"]),
  ("has", ["hæz", "həz"]),
  ("had", ["hæd", "həd"]),
  ("will", ["wɪl"]),
  ("would", ["wʊd"]),
  ("shall", ["ʃæl"]),
  ("should", ["ʃʊd"]),
  ("can", ["kæn", "kən"]),
  ("could", ["kʊd"]),
  ("may", ["meɪ"]),
  ("might", ["maɪt"]),
  ("must", ["mʌst"]),
  ("need", ["niːd"]),
  ("want", ["wɒnt"]),
  ("like", ["laɪk"]),
  ("know", ["nəʊ"]),
  ("think", ["θɪŋk"]),
  ("say", ["seɪ"]),
  ("tell", ["tel"]),
  ("give", ["ɡɪv"]),
  ("get", ["ɡet"]),
  ("make", ["meɪk"]),
  ("take", ["teɪk"]),
  ("come", ["kʌm"]),
  ("go", ["ɡəʊ"]),
  ("see", ["siː"]),
  ("look", ["lʊk"]),
  ("use", ["juːz"]),
  ("find", ["faɪnd"]),
  ("work", ["wɜːk"]),
  ("call", ["kɔːl"]),
  ("try", ["traɪ"]),
  ("ask", ["ɑːsk"]),
  ("seem", ["siːm"]),
  ("feel", ["fiːl"]),
  ("leave", ["liːv"]),
  ("put", ["pʊt"]),
  ("one", ["wʌn"]),
  ("two", ["tuː"]),
  ("three", ["θriː"]),
  ("four", ["fɔː"]),
  ("five", ["faɪv"]),
  ("six", ["sɪks"]),
  ("seven", ["sevən"]),
  ("eight", ["eɪt"]),
  ("nine", ["naɪn"]),
  ("ten", ["ten"]),
  ("eleven", ["ɪlevən"]),
  ("twelve", ["twelv"]),
  ("thirteen", ["θɜːtiːn"]),
  ("fourteen", ["fɔːtiːn"]),
  ("fifteen", ["fɪftiːn"]),
  ("sixteen", ["sɪkstiːn"]),
  ("seventeen", ["sevəntiːn"]),
  ("eighteen", ["eɪtiːn"]),
  ("nineteen", ["naɪntiːn"]),
  ("twenty", ["twenti"]),
  ("thirty", ["θɜːti"]),
  ("forty", ["fɔːti"]),
  ("fifty", ["fɪfti"]),
  ("sixty", ["sɪksti"]),
  ("seventy", ["sevənti"]),
  ("eighty", ["eɪti"]),
  ("ninety", ["naɪnti"]),
  ("hundred", ["hʌndrəd"]),
  ("thousand", ["θaʊzənd"]),
  ("million", ["mɪljən"]),
  ("monday", ["mʌndeɪ"]),
  ("tuesday", ["tjuːzdeɪ"]),
  ("wednesday", ["wenzdeɪ"]),
  ("thursday", ["θɜːzdeɪ"]),
  ("friday", ["fraɪdeɪ"]),
  ("saturday", ["sætədeɪ"]),
  ("sunday", ["sʌndeɪ"]),
  ("january", ["dʒænjuəri"]),
  ("february", ["febjuəri"]),
  ("march", ["mɑːtʃ"]),
  ("april", ["eɪprəl"]),
  ("may", ["meɪ"]),
  ("june", ["dʒuːn"]),
  ("july", ["dʒuˈlaɪ"]),
  ("august", ["ɔːɡəst"]),
  ("september", ["sepˈtembə"]),
  ("october", ["ɒkˈtəʊbə"]),
  ("november", ["nəʊˈvembə"]),
  ("december", ["dɪˈsembə"])
]

/-- Lookup in `fallback_mappings` with Python dict-literal semantics: the
last occurrence of a duplicated key wins. -/
def fallbackLookup (w : String) : Option (List String) :=
  (fallback_mappings.reverse.find? (fun p => p.1 = w)).map Prod.snd

/-- The letter-pattern substitution heuristic of `get_ipa_fallback`
(lines 382-392): eight fixed `str.replace` passes in source order. -/
def basicIpa (word_lower : String) : String :=
  let s := pyReplace word_lower "th" "θ"
  let s := pyReplace s "sh" "ʃ"
  let s := pyReplace s "ch" "tʃ"
  let s := pyReplace s "ng" "ŋ"
  let s := pyReplace s "oo" "uː"
  let s := pyReplace s "ee" "iː"
  let s := pyReplace s "ay" "eɪ"
  pyReplace s "ow" "aʊ"

/-- The source's `ipa_converter.get_ipa_fallback`: curated table hit, else the
letter-pattern heuristic producing a single candidate. -/
def get_ipa_fallback (word : String) : List String :=
  let word_lower := pyStrip (pyLower word)
  match fallbackLookup word_lower with
  | some opts => opts
  | none => [basicIpa word_lower]

/-- A per-word result dict of `process_text`.  Branches of the source that
omit the `has_override` key are modelled with `has_override := false`,
matching every reader's `word_data.get('has_override', False)`. -/
structure WordResult where
  original : String
  clean : String
  ipa_options : List String
  selected : String
  has_override : Bool
deriving Repr, DecidableEq

/-- First-match lookup in an association list, the model of reading a
parsed JSON object / Python dict (whose keys are unique). -/
def lookupDict : List (String × String) → String → Option String
  | [], _ => none
  | (k', v) :: rest, k => if k = k' then some v else lookupDict rest k

/-- The candidate-accumulation loop of `process_text` (lines 440-447):
each fallback option is passed through the HCE map and appended only if
not already present. -/
def addFallback (acc : List String) (opts : List String) : List String :=
  opts.foldl
    (fun a o =>
      let m := applyHCE HCE_MAP o
      if a.contains m then a else a ++ [m])
    acc

/-- The synthesizer branch of `process_text` (lines 429-437): an espeak
result is used only when truthy (present and non-empty); its delimiters
are stripped and the HCE map applied. -/
def espeakCandidates (espeak : String → Option String) (clean : String) :
    List String :=
  match espeak clean with
  | some r =>
    if r.data.isEmpty then []
    else [applyHCE HCE_MAP (pyReplace (pyReplace r "_" "") " " "")]
  | none => []

/-- The per-word candidate assembly of `process_text` after the override and
non-word branches: espeak candidate, then deduplicated mapped fallback
options, then the last-resort clean word. -/
def assembleOptions (espeakCands fallbackOpts : List String)
    (clean : String) : List String :=
  let opts := addFallback espeakCands fallbackOpts
  if opts.isEmpty then [clean] else opts

/-- One iteration of `process_text`'s word loop. -/
def processWord (espeak : String → Option String)
    (overrideDict : List (String × String)) (word : String) : WordResult :=
  let clean := clean_word word
  match lookupDict overrideDict clean with
  | some v =>
    { original := word, clean := clean, ipa_options := [v], selected := v,
      has_override := true }
  | none =>
    if pyIsAlnum (dropApos clean) then
      let opts := assembleOptions (espeakCandidates espeak clean)
        (get_ipa_fallback clean) clean
      { original := word, clean := clean, ipa_options := opts,
        selected := opts.headD clean, has_override := false }
    else
      { original := word, clean := clean, ipa_options := [word],
        selected := word, has_override := false }

/-- The source's `ipa_converter.process_text`, with the espeak oracle and the
module-level `OVERRIDE_DICT` as explicit parameters. -/
def process_text (espeak : String → Option String)
    (overrideDict : List (String × String)) (text : String) :
    List WordResult :=
  (pySplit text).map (processWord espeak overrideDict)

/-! ## Learning ledger, confidence and promotion (`app_hce.py`,
`app_enhanced.py`) -/

/-- The fields of a well-formed `auto_learning_log.jsonl` line that the
replay consumes. -/
structure LearnEvent where
  word : String
  ipa_choice : String
deriving Repr, DecidableEq

/-- The three interaction types of `auto_learn_from_selection`. -/
inductive Interaction where
  | selection
  | manual_correction
  | accept_all
deriving Repr, DecidableEq

/-- The ledger-replay loop of `auto_learn_from_selection` (lines 240-253
of `app_hce.py`): `json.loads` is applied line by line inside a single
`try`, so the first malformed line (`none`) raises and the `except`
abandons the loop — entries before it are kept (the dict was mutated in
place), the malformed line and everything after it are dropped. -/
def readLedgerEntries : List (Option LearnEvent) → List LearnEvent
  | [] => []
  | some e :: rest => e :: readLedgerEntries rest
  | none :: _ => []

/-- The count `auto_data[word][ipa]['count']` after replay. -/
def countFor (es : List LearnEvent) (w ipa : String) : Nat :=
  (es.filter (fun e => e.word = w && e.ipa_choice = ipa)).length

/-- The total `sum(data['count'] for data in auto_data[word].values())` before the
current event is added. -/
def totalFor (es : List LearnEvent) (w : String) : Nat :=
  (es.filter (fun e => e.word = w)).length

/-- The `base_confidence` as computed by a `record(w, ipa, _)` call: the
current event is first counted, then the frequency ratio is taken. -/
def baseConfidence (es : List LearnEvent) (w ipa : String) : ℚ :=
  ((countFor es w ipa : ℚ) + 1) / ((totalFor es w : ℚ) + 1)

/-- Interaction multipliers of `app_hce.auto_learn_from_selection`
(manual 2.0, accept-all 1.5, selection 1.0). -/
def multiplierHCE : Interaction → ℚ
  | .manual_correction => 2
  | .accept_all => 3 / 2
  | .selection => 1

/-- Interaction multipliers of
`app_enhanced.enhanced_auto_learn_from_selection` (manual 1.5,
accept-all 1.2, selection 1.0). -/
def multiplierEnhanced : Interaction → ℚ
  | .manual_correction => 3 / 2
  | .accept_all => 6 / 5
  | .selection => 1

/-- The value `final_confidence = min(1.0, base_confidence * multiplier)`. -/
def finalConfidence (mult : Interaction → ℚ) (es : List LearnEvent)
    (w ipa : String) (itype : Interaction) : ℚ :=
  min 1 (baseConfidence es w ipa * mult itype)

/-- The promotion test of `app_hce.auto_learn_from_selection`
(lines 304-310): confidence against the session-state threshold with
min-repeats 1, or an unconditional promote for manual corrections and
accept-all. -/
def promotesHCE (es : List LearnEvent) (w ipa : String)
    (itype : Interaction) (sessionThreshold : ℚ) : Bool :=
  let cnt := countFor es w ipa + 1
  (finalConfidence multiplierHCE es w ipa itype ≥ sessionThreshold && cnt ≥ 1)
    || (itype = Interaction.manual_correction || itype = Interaction.accept_all)

/-- The promotion test of `enhanced_auto_learn_from_selection`
(lines 139-141 of `app_enhanced.py`): confidence against the
session-state threshold with min-repeats 2, no unconditional branch. -/
def promotesEnhanced (es : List LearnEvent) (w ipa : String)
    (itype : Interaction) (sessionThreshold : ℚ) : Bool :=
  let cnt := countFor es w ipa + 1
  finalConfidence multiplierEnhanced es w ipa itype ≥ sessionThreshold && cnt ≥ 2

/-- Python dict insertion `d[w] = v` on the model of a parsed JSON
object: replace the value of an existing key in place, else append. -/
def dictInsert (d : List (String × String)) (w v : String) :
    List (String × String) :=
  if (lookupDict d w).isSome then
    d.map (fun p => if p.1 = w then (p.1, v) else p)
  else d ++ [(w, v)]

/-- The source's `app_hce.force_save_to_override`: re-read `override_dict.json`
(missing or corrupt parses as the empty dict), bind `word` to `ipa`,
write the whole dict back. -/
def force_save_to_override (file : Option (List (String × String)))
    (word ipa : String) : List (String × String) :=
  dictInsert (file.getD []) word ipa

/-- The process-wide state relevant to resolution and learning.
`moduleOverrideDict` is `ipa_converter.OVERRIDE_DICT`, parsed from
`override_dict.json` once at module import (lines 32-39) and never
re-read; `overrideFile` is the current content of `override_dict.json`;
`ledgerFile` the lines of `auto_learning_log.jsonl`. -/
structure AppState where
  moduleOverrideDict : List (String × String)
  overrideFile : List (String × String)
  ledgerFile : List (Option LearnEvent)
deriving Repr, DecidableEq

/-- The source's `app_hce.auto_learn_from_selection` as a state transition: replay the
ledger, append the new event, and on promotion re-read and rewrite the
override file.  Returns the `promoted` flag.  `OVERRIDE_DICT` in
`ipa_converter` is untouched. -/
def auto_learn_from_selection (st : AppState) (sessionThreshold : ℚ)
    (wd : WordResult) (selected_option : String) (itype : Interaction) :
    Bool × AppState :=
  let w := wd.clean
  let es := readLedgerEntries st.ledgerFile
  let promoted := promotesHCE es w selected_option itype sessionThreshold
  let ledgerFile := st.ledgerFile ++ [some ⟨w, selected_option⟩]
  if promoted then
    (true, { st with ledgerFile := ledgerFile,
                     overrideFile := dictInsert st.overrideFile w selected_option })
  else
    (false, { st with ledgerFile := ledgerFile })

/-! ## Spec-side refinement models and concrete data -/

/-- Refinement model of the spec's phoneme-mapper wording: the rule whose
non-empty source matches the longest prefix at the current position
(storage order immaterial; ties cannot arise as sources are distinct). -/
def longestMatchingRule (rules : List (String × String)) (s : List Char) :
    Option (String × String) :=
  rules.foldl
    (fun best r =>
      if r.1.data ≠ [] ∧ r.1.data.isPrefixOf s then
        match best with
        | none => some r
        | some b => if b.1.data.length < r.1.data.length then some r else best
      else best)
    none

/-- Refinement model of the spec's phoneme-mapper wording: a single
left-to-right, longest-match-first, non-overlapping substitution pass.
(`fuel` for structural recursion; each match consumes at least one
character, so `fuel = s.length` suffices.) -/
def specLMFAux (rules : List (String × String)) : Nat → List Char → List Char
  | _, [] => []
  | 0, s => s
  | fuel + 1, c :: rest =>
    match longestMatchingRule rules (c :: rest) with
    | some r => r.2.data ++ specLMFAux rules fuel ((c :: rest).drop r.1.data.length)
    | none => c :: specLMFAux rules fuel rest

/-- The spec's phoneme mapper on `String`s. -/
def specLongestMatchSubst (rules : List (String × String)) (s : String) :
    String :=
  ⟨specLMFAux rules s.data.length s.data⟩

/-- Refinement model of the spec's dialect-permutation wording (step 4 of
the candidate generator): for each candidate, up to 2 extra variants
obtained by swapping the broad/general long low vowels `æː` and `ɑː`,
each added only if it differs from the candidate it came from and from
the variants already added. -/
def dialectPermuteStep (cands : List String) : List String :=
  cands.foldl
    (fun acc c =>
      let v1 := pyReplace c "æː" "ɑː"
      let v2 := pyReplace c "ɑː" "æː"
      let acc1 := if v1 ≠ c ∧ v1 ∉ acc then acc ++ [v1] else acc
      if v2 ≠ c ∧ v2 ∉ acc1 then acc1 ++ [v2] else acc1)
    cands

/-- The `word_data` dict that `process_text` produces for the token
`dance` of `I can't dance` with no synthesizer and an empty override
dictionary (fallback entries `dæːns`/`dɑːns` pass through the HCE map,
whose `æ→æː` and `ɑ→ɑː` rules lengthen them). -/
def danceWordData : WordResult :=
  ⟨"dance", "dance", ["dæːːns", "dɑːːns"], "dæːːns", false⟩

/-! ## Shared helper lemmas -/

theorem toNat_ofNat_small {n : Nat} (h : n < 0xd800) : (Char.ofNat n).toNat = n := by
  have hv : n.isValidChar := Or.inl h
  rw [Char.ofNat, dif_pos hv]
  simp [Char.ofNatAux, Char.toNat, UInt32.toNat, BitVec.toNat_ofNatLt]

/-- Lemma: `Char.toLower` is idempotent. -/
theorem toLower_toLower (c : Char) : c.toLower.toLower = c.toLower := by
  unfold Char.toLower
  by_cases h : c.toNat ≥ 65 ∧ c.toNat ≤ 90
  · rw [if_pos h]
    have ht : (Char.ofNat (c.toNat + 32)).toNat = c.toNat + 32 :=
      toNat_ofNat_small (by omega)
    rw [ht, if_neg (by omega)]
  · rw [if_neg h, if_neg h]

theorem head?_all_dropWhile {α : Type} (p : α → Bool) (l : List α) :
    ((l.dropWhile p).head?.all (fun c => !p c)) = true := by
  induction l with
  | nil => rfl
  | cons a t ih =>
    by_cases h : p a
    · rw [List.dropWhile_cons_of_pos h]; exact ih
    · rw [List.dropWhile_cons_of_neg h]
      simp [h]

theorem head?_all_of_leading {α : Type} {q : α → Bool} {r m : List α}
    (h : r <+: m) (hm : (m.head?.all q) = true) : (r.head?.all q) = true := by
  cases r with
  | nil => rfl
  | cons a t =>
    obtain ⟨s, hs⟩ := h
    subst hs
    simpa using hm

theorem getLast?_all_rdropWhile {α : Type} (p : α → Bool) (l : List α) :
    ((l.rdropWhile p).getLast?.all (fun c => !p c)) = true := by
  rw [List.rdropWhile, List.getLast?_reverse]
  exact head?_all_dropWhile p l.reverse

theorem dropWhile_eq_self_of_head? {α : Type} {p : α → Bool} {m : List α}
    (h : (m.head?.all (fun c => !p c)) = true) : m.dropWhile p = m := by
  cases m with
  | nil => rfl
  | cons a t =>
    simp only [List.head?_cons, Option.all_some, Bool.not_eq_true'] at h
    rw [List.dropWhile_cons_of_neg (by simp [h])]

theorem rdropWhile_eq_self_of_getLast? {α : Type} {p : α → Bool} {m : List α}
    (h : (m.getLast?.all (fun c => !p c)) = true) : m.rdropWhile p = m := by
  rw [List.rdropWhile, List.reverse_eq_iff]
  exact dropWhile_eq_self_of_head? (by rwa [List.head?_reverse])

theorem rdropWhile_append_rtakeWhile {α : Type} (p : α → Bool) (l : List α) :
    l.rdropWhile p ++ l.rtakeWhile p = l := by
  rw [List.rdropWhile, List.rtakeWhile, ← List.reverse_append,
    List.takeWhile_append_dropWhile, List.reverse_reverse]

/-- The stripped core of `clean_word`: every character of the result is a
character of the input. -/
theorem strip_core_subset {α : Type} (p : α → Bool) (l : List α) :
    ((l.dropWhile p).rdropWhile p) ⊆ l := by
  intro c hc
  have hpre := List.rdropWhile_prefix p (l.dropWhile p)
  have h1 : c ∈ l.dropWhile p := hpre.sublist.subset hc
  exact (List.dropWhile_suffix p).sublist.subset h1

/-! ## C10: `clean_word` idempotence and shape -/

theorem pyStrip_data (s : String) :
    (pyStrip s).data = (s.data.dropWhile isStripChar).rdropWhile isStripChar := rfl

theorem pyStrip_head?_ok (s : String) :
    ((pyStrip s).data.head?.all (fun c => !isStripChar c)) = true := by
  rw [pyStrip_data]
  have hpre := List.rdropWhile_prefix isStripChar (s.data.dropWhile isStripChar)
  exact head?_all_of_leading hpre (head?_all_dropWhile _ _)

theorem pyStrip_getLast?_ok (s : String) :
    ((pyStrip s).data.getLast?.all (fun c => !isStripChar c)) = true := by
  rw [pyStrip_data]
  exact getLast?_all_rdropWhile _ _

theorem pyStrip_pyStrip (s : String) : pyStrip (pyStrip s) = pyStrip s := by
  show (⟨((pyStrip s).data.dropWhile isStripChar).rdropWhile isStripChar⟩ : String)
    = pyStrip s
  rw [dropWhile_eq_self_of_head? (pyStrip_head?_ok s),
    rdropWhile_eq_self_of_getLast? (pyStrip_getLast?_ok s)]

theorem pyLower_clean_word (w : String) :
    pyLower (clean_word w) = clean_word w := by
  show (⟨(clean_word w).data.map Char.toLower⟩ : String) = clean_word w
  have hfix : ∀ c ∈ (clean_word w).data, Char.toLower c = id c := by
    intro c hc
    have hc' : c ∈ (pyLower w).data := strip_core_subset isStripChar (pyLower w).data hc
    simp only [pyLower] at hc'
    obtain ⟨a, _, rfl⟩ := List.mem_map.mp hc'
    exact toLower_toLower a
  rw [List.map_congr_left hfix, List.map_id]

/-- Claim C10: `clean_word` is idempotent, and its output is exactly the
lowercased input with one leading and one trailing block of characters
from `.,!?;:` removed — a contiguous infix with non-strip boundary
characters, so interior punctuation, apostrophes and hyphens are
retained. -/
theorem clean_word_idempotent_shape (w : String) :
    clean_word (clean_word w) = clean_word w ∧
    ∃ pre suf : List Char,
      (pyLower w).data = pre ++ (clean_word w).data ++ suf ∧
      pre.all isStripChar = true ∧
      suf.all isStripChar = true ∧
      ((clean_word w).data.head?.all (fun c => !isStripChar c)) = true ∧
      ((clean_word w).data.getLast?.all (fun c => !isStripChar c)) = true := by
  constructor
  · show pyStrip (pyLower (clean_word w)) = clean_word w
    rw [pyLower_clean_word]
    exact pyStrip_pyStrip (pyLower w)
  · refine ⟨(pyLower w).data.takeWhile isStripChar,
      ((pyLower w).data.dropWhile isStripChar).rtakeWhile isStripChar,
      ?_, ?_, ?_, pyStrip_head?_ok (pyLower w), pyStrip_getLast?_ok (pyLower w)⟩
    · have hsplit := rdropWhile_append_rtakeWhile isStripChar
        ((pyLower w).data.dropWhile isStripChar)
      calc (pyLower w).data
          = (pyLower w).data.takeWhile isStripChar
            ++ (pyLower w).data.dropWhile isStripChar :=
            (List.takeWhile_append_dropWhile _ _).symm
        _ = (pyLower w).data.takeWhile isStripChar
            ++ (((pyLower w).data.dropWhile isStripChar).rdropWhile isStripChar
              ++ ((pyLower w).data.dropWhile isStripChar).rtakeWhile isStripChar) := by
            rw [hsplit]
        _ = (pyLower w).data.takeWhile isStripChar ++ (clean_word w).data
            ++ ((pyLower w).data.dropWhile isStripChar).rtakeWhile isStripChar := by
            rw [← List.append_assoc]
            rfl
    · exact List.all_eq_true.mpr fun x hx => List.mem_takeWhile_imp hx
    · exact List.all_eq_true.mpr fun x hx => List.mem_rtakeWhile_imp hx

/-! ## C9: `force_save_to_override` frame property -/

theorem lookupDict_map_update_ne (d : List (String × String)) (w v k : String)
    (hk : k ≠ w) :
    lookupDict (d.map (fun p => if p.1 = w then (p.1, v) else p)) k
      = lookupDict d k := by
  induction d with
  | nil => rfl
  | cons p rest ih =>
    obtain ⟨k', v'⟩ := p
    simp only [List.map_cons]
    by_cases h1 : k' = w
    · rw [if_pos h1]
      simp only [lookupDict]
      have hk' : k ≠ k' := fun h => hk (h1 ▸ h)
      rw [if_neg hk', if_neg hk']
      exact ih
    · rw [if_neg h1]
      simp only [lookupDict]
      by_cases h2 : k = k'
      · rw [if_pos h2, if_pos h2]
      · rw [if_neg h2, if_neg h2]
        exact ih

theorem lookupDict_map_update_eq (d : List (String × String)) (w v : String)
    (hw : (lookupDict d w).isSome = true) :
    lookupDict (d.map (fun p => if p.1 = w then (p.1, v) else p)) w
      = some v := by
  induction d with
  | nil => simp [lookupDict] at hw
  | cons p rest ih =>
    obtain ⟨k', v'⟩ := p
    simp only [List.map_cons]
    by_cases h1 : k' = w
    · rw [if_pos h1]
      simp only [lookupDict]
      rw [if_pos h1.symm]
    · rw [if_neg h1]
      simp only [lookupDict]
      have h2 : w ≠ k' := fun h => h1 h.symm
      rw [if_neg h2]
      apply ih
      simp only [lookupDict, if_neg h2] at hw
      exact hw

theorem lookupDict_append_single (d : List (String × String)) (w v k : String)
    (hw : lookupDict d w = none) :
    lookupDict (d ++ [(w, v)]) k = if k = w then some v else lookupDict d k := by
  induction d with
  | nil =>
    simp only [List.nil_append, lookupDict]
  | cons p rest ih =>
    obtain ⟨k', v'⟩ := p
    have h2 : w ≠ k' := by
      intro h
      simp only [lookupDict, if_pos h] at hw
      exact Option.noConfusion hw
    have hw' : lookupDict rest w = none := by
      simp only [lookupDict, if_neg h2] at hw
      exact hw
    simp only [List.cons_append, lookupDict]
    by_cases h3 : k = k'
    · rw [if_pos h3, if_pos h3]
      have hkw : k ≠ w := fun h => h2 (h ▸ h3)
      rw [if_neg hkw]
    · rw [if_neg h3, if_neg h3]
      exact ih hw'


theorem lookupDict_dictInsert (d : List (String × String)) (w v k : String) :
    lookupDict (dictInsert d w v) k
      = if k = w then some v else lookupDict d k := by
  unfold dictInsert
  by_cases hw : (lookupDict d w).isSome = true
  · rw [if_pos hw]
    by_cases hk : k = w
    · subst hk
      rw [if_pos rfl]
      exact lookupDict_map_update_eq d k v hw
    · rw [if_neg hk]
      exact lookupDict_map_update_ne d w v k hk
  · rw [if_neg hw]
    exact lookupDict_append_single d w v k (Option.not_isSome_iff_eq_none.mp hw)

/-- Claim C9: `force_save_to_override(w, s)` rebinds only `w` in the
persisted override dictionary: afterwards `w` maps to `s` and every
other previously stored pair is unchanged. -/
theorem force_save_frame (prev : List (String × String)) (w s k : String)
    (hk : k ≠ w) :
    lookupDict (force_save_to_override (some prev) w s) w = some s ∧
    lookupDict (force_save_to_override (some prev) w s) k
      = lookupDict prev k := by
  constructor
  · rw [force_save_to_override, Option.getD_some, lookupDict_dictInsert,
      if_pos rfl]
  · rw [force_save_to_override, Option.getD_some, lookupDict_dictInsert,
      if_neg hk]

/-- Witness for C9 at a concrete store. -/
theorem force_save_frame_witness :
    lookupDict (force_save_to_override
      (some [("path", "pɑːθ"), ("dance", "dæːns")]) "dance" "dɑːns") "dance"
      = some "dɑːns" ∧
    lookupDict (force_save_to_override
      (some [("path", "pɑːθ"), ("dance", "dæːns")]) "dance" "dɑːns") "path"
      = lookupDict [("path", "pɑːθ"), ("dance", "dæːns")] "path" :=
  force_save_frame [("path", "pɑːθ"), ("dance", "dæːns")] "dance" "dɑːns"
    "path" (by decide)

/-! ## C5: phoneme mapping — storage-order sequential vs longest-match -/

/-- Counterexample to C5: on input `əʉ`, the code applies `ʉ→ʉː` and
`ə→əː` (earlier in storage order) and never the longer-source rule
`əʉ→əʊ`, producing `əːʉː`; a longest-match-first substitution would
produce `əʊ`.  The longer match does not take precedence, and the result
depends on storage order. -/
theorem hce_map_not_longest_match_first :
    applyHCE HCE_MAP "əʉ" = "əːʉː" ∧
    specLongestMatchSubst HCE_MAP "əʉ" = "əʊ" ∧
    applyHCE HCE_MAP "əʉ" ≠ specLongestMatchSubst HCE_MAP "əʉ" :=
  ⟨by decide, by decide, by decide⟩

/-- Amended C5: the mapping applies the table's rules one after another
in storage order, each rule as a whole-string Python `str.replace`, so a
later rule acts on the output of earlier rules rather than any
longest-match-first discipline. -/
theorem applyHCE_storage_order_sequential :
    (∀ t1 t2 : List (String × String), ∀ s : String,
      applyHCE (t1 ++ t2) s = applyHCE t2 (applyHCE t1 s)) ∧
    (∀ r : String × String, ∀ rs : List (String × String), ∀ s : String,
      applyHCE (r :: rs) s = applyHCE rs (pyReplace s r.1 r.2)) := by
  constructor
  · intro t1 t2 s
    unfold applyHCE
    exact List.foldl_append _ _ _ _
  · intro r rs s
    rfl

/-! ## C6: malformed ledger lines -/

/-- Amended C6: the replay loop consumes exactly the longest prefix of
well-formed lines — a malformed line and everything after it (well-formed
or not) are dropped, while lines before it are kept; no exception
escapes. -/
theorem readLedger_is_wellformed_take :
    ∀ lines : List (Option LearnEvent),
      readLedgerEntries lines = (lines.takeWhile Option.isSome).filterMap id := by
  intro lines
  induction lines with
  | nil => rfl
  | cons o rest ih =>
    cases o with
    | some e =>
      show e :: readLedgerEntries rest = _
      rw [ih]
      rfl
    | none => rfl

/-- Counterexample to C6: with a well-formed line before and after a
corrupt line, the replay keeps only the first line; processing every
well-formed line would keep both, and the two replays yield different
base confidences for a subsequent `record("w", "b", ...)`. -/
theorem corrupt_line_aborts_replay :
    readLedgerEntries [some ⟨"w", "a"⟩, none, some ⟨"w", "a"⟩] = [⟨"w", "a"⟩] ∧
    ([some (⟨"w", "a"⟩ : LearnEvent), none, some ⟨"w", "a"⟩].filterMap id
      = [⟨"w", "a"⟩, ⟨"w", "a"⟩]) ∧
    readLedgerEntries [some ⟨"w", "a"⟩, none, some ⟨"w", "a"⟩]
      ≠ [some (⟨"w", "a"⟩ : LearnEvent), none, some ⟨"w", "a"⟩].filterMap id ∧
    baseConfidence (readLedgerEntries [some ⟨"w", "a"⟩, none, some ⟨"w", "a"⟩])
      "w" "b" = 1 / 2 ∧
    baseConfidence ([some (⟨"w", "a"⟩ : LearnEvent), none,
      some ⟨"w", "a"⟩].filterMap id) "w" "b" = 1 / 3 := by
  refine ⟨by decide, by decide, by decide, ?_, ?_⟩
  · norm_num [baseConfidence,
      show countFor (readLedgerEntries [some ⟨"w", "a"⟩, none, some ⟨"w", "a"⟩])
        "w" "b" = 0 from by decide,
      show totalFor (readLedgerEntries [some ⟨"w", "a"⟩, none, some ⟨"w", "a"⟩])
        "w" = 1 from by decide]
  · norm_num [baseConfidence,
      show countFor ([some (⟨"w", "a"⟩ : LearnEvent), none,
        some ⟨"w", "a"⟩].filterMap id) "w" "b" = 0 from by decide,
      show totalFor ([some (⟨"w", "a"⟩ : LearnEvent), none,
        some ⟨"w", "a"⟩].filterMap id) "w" = 2 from by decide]

/-! ## C7: the promotion decision reads ambient session state -/

theorem auto_learn_fst_eq_promotes (st : AppState) (t : ℚ) (wd : WordResult)
    (ipa : String) (itype : Interaction) :
    (auto_learn_from_selection st t wd ipa itype).1
      = promotesHCE (readLedgerEntries st.ledgerFile) wd.clean ipa itype t := by
  by_cases h : promotesHCE (readLedgerEntries st.ledgerFile) wd.clean ipa itype t
    = true
  · simp [auto_learn_from_selection, h]
  · simp only [Bool.not_eq_true] at h
    simp [auto_learn_from_selection, h]

/-- Counterexample to C7: two `record` calls with identical word, chosen
IPA, interaction type and ledger, differing only in the session-held
confidence threshold (`st.session_state.confidence_threshold`), return
different `promoted` results — the decision is not independent of ambient
UI session state. -/
theorem promotion_depends_on_session_threshold :
    (auto_learn_from_selection
      ⟨[], [], [some ⟨"w", "a"⟩, some ⟨"w", "b"⟩, some ⟨"w", "b"⟩]⟩ (1 / 2)
      ⟨"w", "w", ["a"], "a", false⟩ "a" Interaction.selection).1 = true ∧
    (auto_learn_from_selection
      ⟨[], [], [some ⟨"w", "a"⟩, some ⟨"w", "b"⟩, some ⟨"w", "b"⟩]⟩ (7 / 10)
      ⟨"w", "w", ["a"], "a", false⟩ "a" Interaction.selection).1 = false := by
  have hc : countFor (readLedgerEntries
      [some ⟨"w", "a"⟩, some ⟨"w", "b"⟩, some ⟨"w", "b"⟩]) "w" "a" = 1 := by
    decide
  have ht : totalFor (readLedgerEntries
      [some ⟨"w", "a"⟩, some ⟨"w", "b"⟩, some ⟨"w", "b"⟩]) "w" = 3 := by
    decide
  constructor
  · rw [auto_learn_fst_eq_promotes]
    norm_num [promotesHCE, finalConfidence, baseConfidence, multiplierHCE,
      hc, ht]
  · rw [auto_learn_fst_eq_promotes]
    norm_num [promotesHCE, finalConfidence, baseConfidence, multiplierHCE,
      hc, ht]
    exact ⟨by decide, by decide⟩

/-- Amended C7: the promotion decision is a function of the explicit
arguments, the replayed ledger and the session-held threshold; with the
threshold included it is exactly the code's predicate — confidence at
least the session threshold with min-repeats 1, or unconditionally for
manual corrections and accept-all. -/
theorem promotion_characterization (st : AppState) (t : ℚ) (wd : WordResult)
    (ipa : String) (itype : Interaction) :
    (auto_learn_from_selection st t wd ipa itype).1 = true ↔
      ((finalConfidence multiplierHCE (readLedgerEntries st.ledgerFile)
          wd.clean ipa itype ≥ t
        ∧ countFor (readLedgerEntries st.ledgerFile) wd.clean ipa + 1 ≥ 1)
      ∨ itype = Interaction.manual_correction
      ∨ itype = Interaction.accept_all) := by
  rw [auto_learn_fst_eq_promotes]
  simp [promotesHCE, Bool.or_eq_true, Bool.and_eq_true, decide_eq_true_iff]

/-! ## C2: the two-conflicting-selections scenario -/

theorem countFor_eq_zero_of_totalFor_eq_zero (es : List LearnEvent)
    (w ipa : String) (hw : totalFor es w = 0) : countFor es w ipa = 0 := by
  have hno : ∀ e ∈ es, ¬(e.word = w) := by
    have h0 : es.filter (fun e => e.word = w) = [] :=
      List.length_eq_zero.mp hw
    intro e he
    have := List.filter_eq_nil_iff.mp h0 e he
    simpa using this
  rw [countFor, List.length_eq_zero, List.filter_eq_nil_iff]
  intro e he
  simp only [Bool.and_eq_true, decide_eq_true_iff, not_and]
  exact fun hh => absurd hh (hno e he)

theorem countFor_append_other (es : List LearnEvent) (w a b : String)
    (hab : a ≠ b) :
    countFor (es ++ [⟨w, a⟩]) w b = countFor es w b := by
  rw [countFor, List.filter_append, List.length_append, countFor]
  have h1 : List.filter (fun e => e.word = w && e.ipa_choice = b)
      [(⟨w, a⟩ : LearnEvent)] = [] := by
    simp [hab]
  rw [h1]
  rfl

theorem totalFor_append_same (es : List LearnEvent) (w a : String) :
    totalFor (es ++ [⟨w, a⟩]) w = totalFor es w + 1 := by
  rw [totalFor, List.filter_append, List.length_append, totalFor]
  congr 1
  simp

/-- Counterexample to C2: for a never-before-seen word, the FIRST
`selection` call computes `base_confidence = 1/1 = 1.0`, not `0.5`, and
in the `app_hce` variant (min-repeats 1) it promotes even with the
threshold `0.7 > 0.5`. -/
theorem first_selection_confidence_is_one :
    baseConfidence [] "w" "a" = 1 ∧ (1 : ℚ) ≠ 1 / 2 ∧
    promotesHCE [] "w" "a" Interaction.selection (7 / 10) = true := by
  refine ⟨?_, by norm_num, ?_⟩
  · norm_num [baseConfidence, countFor, totalFor]
  · norm_num [promotesHCE, finalConfidence, baseConfidence, countFor,
      totalFor, multiplierHCE, List.filter]

/-- Amended C2: with a never-before-seen word and two conflicting
`selection` events, the first call computes base confidence `1.0` — it
promotes in the `app_hce` variant (min-repeats 1) for any threshold
`≤ 1`, and does not promote in the enhanced variant (min-repeats 2);
only the second call computes base confidence `0.5`, and with a
threshold `> 0.5` neither variant promotes it. -/
theorem tie_scenario_amended (es : List LearnEvent) (w a b : String) (t : ℚ)
    (hw : totalFor es w = 0) (hab : a ≠ b) (ht1 : 1 / 2 < t) (ht2 : t ≤ 1) :
    baseConfidence es w a = 1 ∧
    promotesHCE es w a Interaction.selection t = true ∧
    promotesEnhanced es w a Interaction.selection t = false ∧
    baseConfidence (es ++ [⟨w, a⟩]) w b = 1 / 2 ∧
    promotesHCE (es ++ [⟨w, a⟩]) w b Interaction.selection t = false ∧
    promotesEnhanced (es ++ [⟨w, a⟩]) w b Interaction.selection t = false := by
  have hca : countFor es w a = 0 := countFor_eq_zero_of_totalFor_eq_zero es w a hw
  have hcb : countFor es w b = 0 := countFor_eq_zero_of_totalFor_eq_zero es w b hw
  have hca2 : countFor (es ++ [⟨w, a⟩]) w b = 0 := by
    rw [countFor_append_other es w a b hab]
    exact hcb
  have htot2 : totalFor (es ++ [⟨w, a⟩]) w = 1 := by
    rw [totalFor_append_same, hw]
  have hbase1 : baseConfidence es w a = 1 := by
    rw [baseConfidence, hca, hw]
    norm_num
  have hbase2 : baseConfidence (es ++ [⟨w, a⟩]) w b = 1 / 2 := by
    rw [baseConfidence, hca2, htot2]
    norm_num
  have hfin1 : finalConfidence multiplierHCE es w a Interaction.selection = 1 := by
    rw [finalConfidence, hbase1]
    norm_num [multiplierHCE]
  have hfin1e : finalConfidence multiplierEnhanced es w a Interaction.selection
      = 1 := by
    rw [finalConfidence, hbase1]
    norm_num [multiplierEnhanced]
  have hfin2 : finalConfidence multiplierHCE (es ++ [⟨w, a⟩]) w b
      Interaction.selection = 1 / 2 := by
    rw [finalConfidence, hbase2]
    norm_num [multiplierHCE]
  have hfin2e : finalConfidence multiplierEnhanced (es ++ [⟨w, a⟩]) w b
      Interaction.selection = 1 / 2 := by
    rw [finalConfidence, hbase2]
    norm_num [multiplierEnhanced]
  refine ⟨hbase1, ?_, ?_, hbase2, ?_, ?_⟩
  · simp only [promotesHCE, hfin1, hca]
    simp [ge_iff_le, ht2]
  · simp only [promotesEnhanced, hfin1e, hca]
    simp
  · simp only [promotesHCE, hfin2, hca2]
    have ht1' : ¬((1 : ℚ) / 2 ≥ t) := by
      rw [ge_iff_le]
      exact not_le.mpr ht1
    simp [ht1']
    linarith
  · simp only [promotesEnhanced, hfin2e, hca2]
    have ht1' : ¬((1 : ℚ) / 2 ≥ t) := by
      rw [ge_iff_le]
      exact not_le.mpr ht1
    simp [ht1']

/-- Witness for C2's amended theorem at the empty ledger with threshold
`0.7`. -/
theorem tie_scenario_amended_witness :
    baseConfidence [] "w" "a" = 1 ∧
    promotesHCE [] "w" "a" Interaction.selection (7 / 10) = true ∧
    promotesEnhanced [] "w" "a" Interaction.selection (7 / 10) = false ∧
    baseConfidence ([] ++ [⟨"w", "a"⟩]) "w" "b" = 1 / 2 ∧
    promotesHCE ([] ++ [⟨"w", "a"⟩]) "w" "b" Interaction.selection (7 / 10)
      = false ∧
    promotesEnhanced ([] ++ [⟨"w", "a"⟩]) "w" "b" Interaction.selection (7 / 10)
      = false :=
  tie_scenario_amended [] "w" "a" "b" (7 / 10) (by decide) (by decide)
    (by norm_num) (by norm_num)

/-! ## Candidate-assembly lemmas for `process_text` -/

theorem addFallback_cons (acc : List String) (o : String) (rest : List String) :
    addFallback acc (o :: rest)
      = addFallback
          (if acc.contains (applyHCE HCE_MAP o) then acc
            else acc ++ [applyHCE HCE_MAP o]) rest := rfl

theorem addFallback_subset_acc (opts : List String) :
    ∀ acc : List String, acc ⊆ addFallback acc opts := by
  induction opts with
  | nil => exact fun acc _ h => h
  | cons o rest ih =>
    intro acc
    rw [addFallback_cons]
    by_cases h : acc.contains (applyHCE HCE_MAP o)
    · rw [if_pos h]
      exact ih acc
    · rw [if_neg h]
      intro x hx
      exact ih (acc ++ [applyHCE HCE_MAP o]) (List.mem_append_left _ hx)

theorem mapped_mem_addFallback (opts : List String) :
    ∀ acc : List String, ∀ o ∈ opts,
      applyHCE HCE_MAP o ∈ addFallback acc opts := by
  induction opts with
  | nil =>
    intro acc o ho
    exact absurd ho (List.not_mem_nil o)
  | cons o1 rest ih =>
    intro acc o ho
    rw [addFallback_cons]
    rcases List.mem_cons.mp ho with h | h
    · subst h
      by_cases hc : acc.contains (applyHCE HCE_MAP o)
      · rw [if_pos hc]
        exact addFallback_subset_acc rest acc (by simpa using hc)
      · rw [if_neg hc]
        exact addFallback_subset_acc rest _
          (List.mem_append_right _ (List.mem_singleton.mpr rfl))
    · by_cases hc : acc.contains (applyHCE HCE_MAP o1)
      · rw [if_pos hc]
        exact ih acc o h
      · rw [if_neg hc]
        exact ih _ o h

theorem mem_addFallback (opts : List String) :
    ∀ acc : List String, ∀ c ∈ addFallback acc opts,
      c ∈ acc ∨ ∃ o ∈ opts, c = applyHCE HCE_MAP o := by
  induction opts with
  | nil =>
    intro acc c hc
    exact Or.inl hc
  | cons o1 rest ih =>
    intro acc c hc
    rw [addFallback_cons] at hc
    by_cases h : acc.contains (applyHCE HCE_MAP o1)
    · rw [if_pos h] at hc
      rcases ih acc c hc with h1 | ⟨o, ho, rfl⟩
      · exact Or.inl h1
      · exact Or.inr ⟨o, List.mem_cons_of_mem o1 ho, rfl⟩
    · rw [if_neg h] at hc
      rcases ih _ c hc with h1 | ⟨o, ho, rfl⟩
      · rcases List.mem_append.mp h1 with h2 | h2
        · exact Or.inl h2
        · exact Or.inr ⟨o1, List.mem_cons_self o1 rest,
            (List.mem_singleton.mp h2)⟩
      · exact Or.inr ⟨o, List.mem_cons_of_mem o1 ho, rfl⟩

theorem nodup_addFallback (opts : List String) :
    ∀ acc : List String, acc.Nodup → (addFallback acc opts).Nodup := by
  induction opts with
  | nil => exact fun _ h => h
  | cons o1 rest ih =>
    intro acc hacc
    rw [addFallback_cons]
    by_cases h : acc.contains (applyHCE HCE_MAP o1)
    · rw [if_pos h]
      exact ih acc hacc
    · rw [if_neg h]
      apply ih
      have hm : applyHCE HCE_MAP o1 ∉ acc := by simpa using h
      simp [List.nodup_append, hacc, hm]

theorem assembleOptions_ne_nil (e f : List String) (clean : String) :
    assembleOptions e f clean ≠ [] := by
  unfold assembleOptions
  by_cases h : (addFallback e f).isEmpty
  · rw [if_pos h]
    exact List.cons_ne_nil _ _
  · rw [if_neg h]
    exact fun hn => h (by rw [hn]; rfl)

theorem espeakCandidates_nodup (espeak : String → Option String)
    (clean : String) : (espeakCandidates espeak clean).Nodup := by
  unfold espeakCandidates
  cases espeak clean with
  | none => exact List.nodup_nil
  | some r =>
    dsimp only
    by_cases h : r.data.isEmpty
    · rw [if_pos h]
      exact List.nodup_nil
    · rw [if_neg h]
      exact List.nodup_singleton _

theorem assembleOptions_nodup (e f : List String) (clean : String)
    (he : e.Nodup) : (assembleOptions e f clean).Nodup := by
  unfold assembleOptions
  by_cases h : (addFallback e f).isEmpty
  · rw [if_pos h]
    exact List.nodup_singleton _
  · rw [if_neg h]
    exact nodup_addFallback f e he

theorem pySplitAux_no_ws (l : List Char) :
    ∀ cur : List Char, (∀ c ∈ l, pyIsSpace c = false) →
      (l ≠ [] ∨ cur ≠ []) →
      pySplitAux pyIsSpace l cur = [cur.reverse ++ l] := by
  induction l with
  | nil =>
    intro cur _ hne
    have hcur : cur ≠ [] := by
      rcases hne with h | h
      · exact absurd rfl h
      · exact h
    show pySplitAux pyIsSpace [] cur = [cur.reverse ++ []]
    rw [List.append_nil]
    cases cur with
    | nil => exact absurd rfl hcur
    | cons a t => rfl
  | cons c rest ih =>
    intro cur hws _
    have hc : pyIsSpace c = false := hws c (List.mem_cons_self c rest)
    show pySplitAux pyIsSpace (c :: rest) cur = _
    rw [pySplitAux]
    rw [if_neg (by rw [hc]; exact Bool.false_ne_true)]
    rw [ih (c :: cur) (fun x hx => hws x (List.mem_cons_of_mem c hx))
      (Or.inr (List.cons_ne_nil c cur))]
    rw [List.reverse_cons, List.append_assoc]
    rfl

theorem pySplit_single (w : String) (hne : w ≠ "")
    (hnw : ∀ c ∈ w.data, pyIsSpace c = false) : pySplit w = [w] := by
  have hd : w.data ≠ [] := by
    intro h
    apply hne
    cases w with
    | mk d =>
      simp only at h
      rw [h]
  unfold pySplit
  rw [pySplitAux_no_ws w.data [] hnw (Or.inl hd)]
  rfl

theorem processWord_eq_override (espeak : String → Option String)
    (od : List (String × String)) (word v : String)
    (h : lookupDict od (clean_word word) = some v) :
    processWord espeak od word
      = ⟨word, clean_word word, [v], v, true⟩ := by
  simp only [processWord]
  rw [h]

theorem processWord_eq_word (espeak : String → Option String)
    (od : List (String × String)) (word : String)
    (h : lookupDict od (clean_word word) = none)
    (ha : pyIsAlnum (dropApos (clean_word word)) = true) :
    processWord espeak od word
      = ⟨word, clean_word word,
          assembleOptions (espeakCandidates espeak (clean_word word))
            (get_ipa_fallback (clean_word word)) (clean_word word),
          (assembleOptions (espeakCandidates espeak (clean_word word))
            (get_ipa_fallback (clean_word word)) (clean_word word)).headD
            (clean_word word),
          false⟩ := by
  simp only [processWord]
  rw [h]
  rw [if_pos ha]

theorem processWord_eq_nonword (espeak : String → Option String)
    (od : List (String × String)) (word : String)
    (h : lookupDict od (clean_word word) = none)
    (ha : ¬pyIsAlnum (dropApos (clean_word word)) = true) :
    processWord espeak od word
      = ⟨word, clean_word word, [word], word, false⟩ := by
  simp only [processWord]
  rw [h]
  rw [if_neg ha]

theorem processWord_ipa_options_ok (espeak : String → Option String)
    (od : List (String × String)) (word : String) :
    (processWord espeak od word).ipa_options ≠ [] ∧
    (processWord espeak od word).ipa_options.Nodup := by
  rcases h : lookupDict od (clean_word word) with _ | v
  · by_cases ha : pyIsAlnum (dropApos (clean_word word)) = true
    · rw [processWord_eq_word espeak od word h ha]
      exact ⟨assembleOptions_ne_nil _ _ _,
        assembleOptions_nodup _ _ _ (espeakCandidates_nodup espeak _)⟩
    · rw [processWord_eq_nonword espeak od word h ha]
      exact ⟨List.cons_ne_nil _ _, List.nodup_singleton _⟩
  · rw [processWord_eq_override espeak od word v h]
    exact ⟨List.cons_ne_nil _ _, List.nodup_singleton _⟩

/-- Claim C8: on a single non-empty whitespace-free word, `process_text`
returns one result whose `ipa_options` is non-empty and duplicate-free;
and when the synthesizer and the fallback both contribute nothing, the
last-resort branch returns the cleaned word as the sole candidate. -/
theorem process_text_single_word_nonempty_nodup
    (espeak : String → Option String) (od : List (String × String))
    (w : String) (hne : w ≠ "") (hnw : ∀ c ∈ w.data, pyIsSpace c = false) :
    (∃ r : WordResult, process_text espeak od w = [r] ∧
      r.ipa_options ≠ [] ∧ r.ipa_options.Nodup) ∧
    (∀ cl : String, assembleOptions [] [] cl = [cl]) := by
  constructor
  · refine ⟨processWord espeak od w, ?_,
      (processWord_ipa_options_ok espeak od w).1,
      (processWord_ipa_options_ok espeak od w).2⟩
    rw [process_text, pySplit_single w hne hnw]
    rfl
  · intro cl
    rfl

/-- Witness for C8 at the word `dance` with no synthesizer and an empty
override store. -/
theorem process_text_single_word_witness :
    (∃ r : WordResult, process_text (fun _ => none) [] "dance" = [r] ∧
      r.ipa_options ≠ [] ∧ r.ipa_options.Nodup) ∧
    (∀ cl : String, assembleOptions [] [] cl = [cl]) :=
  process_text_single_word_nonempty_nodup (fun _ => none) [] "dance"
    (by decide) (by decide)

theorem mem_assembleOptions (e f : List String) (clean c : String)
    (hc : c ∈ assembleOptions e f clean) :
    c ∈ e ∨ (∃ o ∈ f, c = applyHCE HCE_MAP o) ∨ c = clean := by
  unfold assembleOptions at hc
  by_cases h : (addFallback e f).isEmpty
  · rw [if_pos h] at hc
    right
    right
    exact List.mem_singleton.mp hc
  · rw [if_neg h] at hc
    rcases mem_addFallback f e c hc with h1 | h2
    · exact Or.inl h1
    · exact Or.inr (Or.inl h2)

theorem mem_assembleOptions_of_mem (e f : List String) (clean c : String)
    (hc : c ∈ addFallback e f) : c ∈ assembleOptions e f clean := by
  unfold assembleOptions
  have hne : addFallback e f ≠ [] := by
    intro h
    rw [h] at hc
    exact List.not_mem_nil c hc
  rw [if_neg (by simpa using hne)]
  exact hc

/-! ## C3: no dialect-permutation step exists -/

/-- Counterexample to C3: for `cat` (no synthesizer, empty override
store) the pipeline produces the single candidate `kæːt` and stops; the
spec's dialect-permutation step would have added the swapped variant
`kɑːt`.  No generation step of `process_text` adds such variants. -/
theorem no_dialect_permutation_step :
    (process_text (fun _ => none) [] "cat").map (fun r => r.ipa_options)
      = [["kæːt"]] ∧
    dialectPermuteStep ["kæːt"] = ["kæːt", "kɑːt"] ∧
    ([["kæːt"]] : List (List String)) ≠ [["kæːt", "kɑːt"]] :=
  ⟨by decide, by decide, by decide⟩

/-- Amended C3: `process_text` has no dialect-permutation step — every
candidate it emits for a word is the synthesizer candidate, a mapped
curated-fallback entry, the cleaned word (last resort), the original
token (non-word branch), or the stored override; broad/general
alternation only ever enters through fallback-table entries that list
both variants. -/
theorem candidate_sources_characterization
    (espeak : String → Option String) (od : List (String × String))
    (word : String) :
    ∀ c ∈ (processWord espeak od word).ipa_options,
      c ∈ espeakCandidates espeak (clean_word word)
      ∨ (∃ o ∈ get_ipa_fallback (clean_word word), c = applyHCE HCE_MAP o)
      ∨ c = clean_word word
      ∨ c = word
      ∨ lookupDict od (clean_word word) = some c := by
  intro c hc
  rcases h : lookupDict od (clean_word word) with _ | v
  · by_cases ha : pyIsAlnum (dropApos (clean_word word)) = true
    · rw [processWord_eq_word espeak od word h ha] at hc
      rcases mem_assembleOptions _ _ _ _ hc with h1 | h2 | h3
      · exact Or.inl h1
      · exact Or.inr (Or.inl h2)
      · exact Or.inr (Or.inr (Or.inl h3))
    · rw [processWord_eq_nonword espeak od word h ha] at hc
      exact Or.inr (Or.inr (Or.inr (Or.inl (List.mem_singleton.mp hc))))
  · rw [processWord_eq_override espeak od word v h] at hc
    have hcv : c = v := List.mem_singleton.mp hc
    subst hcv
    exact Or.inr (Or.inr (Or.inr (Or.inr rfl)))

/-- Witness for C3's amended theorem: the sole candidate for `cat` is a
mapped fallback entry. -/
theorem candidate_sources_witness :
    "kæːt" ∈ espeakCandidates (fun _ => none) (clean_word "cat")
    ∨ (∃ o ∈ get_ipa_fallback (clean_word "cat"),
        "kæːt" = applyHCE HCE_MAP o)
    ∨ "kæːt" = clean_word "cat"
    ∨ "kæːt" = "cat"
    ∨ lookupDict [] (clean_word "cat") = some "kæːt" :=
  candidate_sources_characterization (fun _ => none) [] "cat" "kæːt"
    (by decide)

/-! ## C4: when the letter-pattern heuristic contributes -/

/-- Counterexample to C4: for `xy` (absent from the curated table) with a
synthesizer that answers `zz`, the result contains BOTH the synthesizer
candidate and the heuristic candidate `xy` — the heuristic is not
disabled by step 1 producing a candidate. -/
theorem heuristic_fires_despite_synthesizer :
    (process_text (fun _ => some "zz") [] "xy").map (fun r => r.ipa_options)
      = [["zz", "xy"]] ∧
    fallbackLookup "xy" = none ∧
    applyHCE HCE_MAP (basicIpa "xy") = "xy" ∧
    ("zz" : String) ≠ "xy" :=
  ⟨by decide, by decide, by decide, by decide⟩

/-- Amended C4: the heuristic applies exactly when the cleaned word is
absent from the curated table — independently of the synthesizer — and
then contributes exactly one candidate; whenever the table has the word,
the fallback step yields the table's entries and no heuristic candidate.
When the table misses, the mapped heuristic candidate always appears in
the word's `ipa_options`, whatever the synthesizer produced. -/
theorem heuristic_iff_table_miss :
    (∀ word : String,
      get_ipa_fallback word
        = (fallbackLookup (pyStrip (pyLower word))).getD
            [basicIpa (pyStrip (pyLower word))]) ∧
    (∀ espeak : String → Option String, ∀ od : List (String × String),
      ∀ word : String,
      lookupDict od (clean_word word) = none →
      pyIsAlnum (dropApos (clean_word word)) = true →
      fallbackLookup (pyStrip (pyLower (clean_word word))) = none →
      applyHCE HCE_MAP (basicIpa (pyStrip (pyLower (clean_word word))))
        ∈ (processWord espeak od word).ipa_options) := by
  constructor
  · intro word
    simp only [get_ipa_fallback]
    cases h : fallbackLookup (pyStrip (pyLower word)) <;> rfl
  · intro espeak od word h ha hmiss
    rw [processWord_eq_word espeak od word h ha]
    apply mem_assembleOptions_of_mem
    have hf : get_ipa_fallback (clean_word word)
        = [basicIpa (pyStrip (pyLower (clean_word word)))] := by
      simp only [get_ipa_fallback]
      rw [hmiss]
    rw [hf]
    exact mapped_mem_addFallback _ _ _ (List.mem_singleton_self _)

/-- Witness for C4's amended theorem at `xy` with a synthesizer present. -/
theorem heuristic_iff_table_miss_witness :
    applyHCE HCE_MAP (basicIpa (pyStrip (pyLower (clean_word "xy"))))
      ∈ (processWord (fun _ => some "zz") [] "xy").ipa_options :=
  heuristic_iff_table_miss.2 (fun _ => some "zz") [] "xy" (by decide)
    (by decide) (by decide)

/-! ## C1: promotion round trip and the import-time `OVERRIDE_DICT` -/

theorem promotesHCE_manual (es : List LearnEvent) (w ipa : String) (t : ℚ) :
    promotesHCE es w ipa Interaction.manual_correction t = true := by
  simp [promotesHCE]

theorem auto_learn_preserves_module_dict (st : AppState) (t : ℚ)
    (wd : WordResult) (ipa : String) (ity : Interaction) :
    (auto_learn_from_selection st t wd ipa ity).2.moduleOverrideDict
      = st.moduleOverrideDict := by
  by_cases h : promotesHCE (readLedgerEntries st.ledgerFile) wd.clean ipa ity t
    = true
  · simp [auto_learn_from_selection, h]
  · simp only [Bool.not_eq_true] at h
    simp [auto_learn_from_selection, h]

theorem auto_learn_overrideFile_of_promote (st : AppState) (t : ℚ)
    (wd : WordResult) (ipa : String) (ity : Interaction)
    (h : promotesHCE (readLedgerEntries st.ledgerFile) wd.clean ipa ity t
      = true) :
    (auto_learn_from_selection st t wd ipa ity).2.overrideFile
      = dictInsert st.overrideFile wd.clean ipa := by
  simp [auto_learn_from_selection, h]

set_option maxHeartbeats 2000000 in
/-- Claim C1 (code bug, evaluated at the failing input): starting from a
process whose `OVERRIDE_DICT` was loaded at import from an absent file,
`auto_learn_from_selection(dance_word_data, "dæːns", "manual_correction")`
reports `promoted=true` for every threshold and writes the pair to
`override_dict.json`; yet a subsequent `process_text("I can't dance")`
still consults the import-time `OVERRIDE_DICT` (lines 32-39 and 407 of
`ipa_converter.py`), so the `dance` token resolves with
`has_override=false` and `selected="dæːːns"`, not the promoted `dæːns` —
the store is NOT reloaded on resolution as the claim asserts. -/
theorem round_trip_promotion_stale (t : ℚ) :
    (process_text (fun _ => none) [] ("I can" ++ aposStr ++ "t dance")).getLast?
      = some danceWordData ∧
    (auto_learn_from_selection ⟨[], [], []⟩ t danceWordData "dæːns"
      Interaction.manual_correction).1 = true ∧
    lookupDict (auto_learn_from_selection ⟨[], [], []⟩ t danceWordData
      "dæːns" Interaction.manual_correction).2.overrideFile "dance"
      = some "dæːns" ∧
    (process_text (fun _ => none)
      (auto_learn_from_selection ⟨[], [], []⟩ t danceWordData "dæːns"
        Interaction.manual_correction).2.moduleOverrideDict
      ("I can" ++ aposStr ++ "t dance")).map
        (fun r => (r.clean, r.has_override, r.selected))
      = [("i", false, "i"), ("can" ++ aposStr ++ "t", false, "kæːːnt"),
        ("dance", false, "dæːːns")] := by
  refine ⟨by decide, ?_, ?_, ?_⟩
  · rw [auto_learn_fst_eq_promotes ⟨[], [], []⟩ t danceWordData "dæːns"
      Interaction.manual_correction]
    exact promotesHCE_manual _ _ _ _
  · rw [auto_learn_overrideFile_of_promote ⟨[], [], []⟩ t danceWordData
      "dæːns" Interaction.manual_correction (promotesHCE_manual _ _ _ _)]
    decide
  · rw [auto_learn_preserves_module_dict ⟨[], [], []⟩ t danceWordData
      "dæːns" Interaction.manual_correction]
    decide
